import Mathlib

/-!
Verification development for the assignment-grading repository.

Shallow embedding of the segmentation pipeline (`src/services/pdf_service.py`),
the student model (`src/models/student.py`), the grade model
(`src/models/grade_result.py`) and the grading orchestration
(`src/services/grading_service.py`, `src/providers/base_provider.py`).

Python's regex engine is treated as an external capability: every place the
source calls `re.search`/`re.compile(...).search` is modelled by an abstract
match function (`String → Option String`) returning what the source reads off
the match object (`match.group(1) if match.groups() else match.group()`,
already `.strip()`ped where the source strips it).  Everything else is
translated line by line from the source.
-/

/-- Character-list core of `pyStrip`: drop leading and trailing whitespace. -/
def stripCore (l : List Char) : List Char :=
  ((l.dropWhile Char.isWhitespace).reverse.dropWhile Char.isWhitespace).reverse

/-- Models Python `str.strip()` (for the ASCII whitespace the repository's
strings contain): drop leading and trailing whitespace characters. -/
def pyStrip (s : String) : String := ⟨stripCore s.data⟩

/-- Models `"\n\n".join(parts)` (pdf_service.py lines 190, 216, 243). -/
def joinNN (parts : List String) : String := String.intercalate "\n\n" parts

/-- Models `Student.__post_init__` cleaning (student.py lines 15-17):
`self.id = self.id.strip() if self.id else "Unknown"` — Python truthiness of a
string is non-emptiness, so an empty string falls back to `"Unknown"` while a
non-empty string is merely stripped. -/
def cleanField (s : String) : String := if s = "" then "Unknown" else pyStrip s

/-- Models the `Student` dataclass (student.py). The `graded`/dict helpers are
not modelled; `page_range` is `None` or a 1-based inclusive pair. -/
structure Student where
  id : String
  name : String
  content : String
  source_file : String
  page_range : Option (Nat × Nat)
deriving DecidableEq

/-- Constructing a `Student` runs `__post_init__`, which cleans `id` and
`name` (student.py lines 15-17). -/
def mkStudent (id name content source_file : String) (page_range : Option (Nat × Nat)) :
    Student :=
  ⟨cleanField id, cleanField name, content, source_file, page_range⟩

/-- Placeholder student used as a `List.getD` default in theorem statements. -/
def dStudent : Student := ⟨"", "", "", "", none⟩

/-- One page of the combined PDF: `native` is what `page.extract_text()`
returns (`""` for `None`), `ocr` is what the OCR fallback
(`pytesseract.image_to_string`, pdf_service.py lines 183-187, 233-237) would
return for this page (`""` when the `except` branch fires). -/
structure MPage where
  native : String
  ocr : String
deriving DecidableEq

/-- Placeholder page used as a `List.getD` default in theorem statements. -/
def dMPage : MPage := ⟨"", ""⟩

/-- The per-page text that ends up in `content_parts`/`current_content`:
`text = page.extract_text()`; `if not text and self.ocr_enabled: text = ocr`;
`text or ""` (pdf_service.py lines 181-188 and 211, 232-239). -/
def resolveText (ocr_enabled : Bool) (p : MPage) : String :=
  if p.native = "" ∧ ocr_enabled = true then p.ocr else p.native

/-- The dict built inside `PDFService._extract_student_info` and the
`current_info` dict of the marker branch: each key is present (`some`) or
absent (`none`). -/
structure InfoDict where
  id : Option String
  name : Option String
deriving DecidableEq

/-- Models Python `dict.get(key, default)`. -/
def dictGet (v : Option String) (dflt : String) : String := v.getD dflt

/-- External-regex oracle for `PDFService._extract_student_info`
(pdf_service.py lines 266-305): `idMatch c` is the stripped first capture
group of the first ID pattern in `id_patterns` that matches `c[:1500]`
(`none` when no pattern matches); `nameMatch c` is likewise the cleaned,
length-checked result of the `name_patterns` loop. -/
structure InfoOracle where
  idMatch : String → Option String
  nameMatch : String → Option String

/-- Models `PDFService._extract_student_info` (pdf_service.py lines 266-305):
the returned dict is initialised to `{"id": "Unknown", "name": "Unknown"}`
and the pattern loops can only overwrite those values, so BOTH keys are
always present in the result. -/
def extractStudentInfo (o : InfoOracle) (content : String) : InfoDict :=
  ⟨some ((o.idMatch content).getD "Unknown"), some ((o.nameMatch content).getD "Unknown")⟩

/-- Fuel-driven core of `pyRange`; fuel `stop - start` suffices because each
iteration advances `start` by `step ≥ 1`. -/
def pyRangeAux (stop step : Nat) : Nat → Nat → List Nat
  | 0, _ => []
  | fuel + 1, start =>
      if 0 < step ∧ start < stop then start :: pyRangeAux stop step fuel (start + step) else []

/-- Models Python `range(start, stop, step)` for a non-negative step
(pdf_service.py line 176 uses `range(0, total_pages, pages_per_student)`). -/
def pyRange (start stop step : Nat) : List Nat := pyRangeAux stop step (stop - start) start

/-- Loop body of the fixed-pages branch of
`PDFService.extract_students_from_combined` (pdf_service.py lines 171-199):
for each `start` produced by `range(0, total_pages, pages_per_student)`,
gather the texts of pages `start..end-1` (`end = min(start+P, total)`), join
them, run `_extract_student_info`, and append one `Student` whose id defaults
to `"Student_<len(students)+1>"` WHEN the info dict lacks the key, and whose
`page_range` is `(start + 1, end)`. -/
def fixedLoop (o : InfoOracle) (e : Bool) (path : String) (pages : List MPage) (P : Nat) :
    List Nat → List Student → List Student
  | [], students => students
  | start :: rest, students =>
      let stop := min (start + P) pages.length
      let content := joinNN (((pages.drop start).take (stop - start)).map (resolveText e))
      let info := extractStudentInfo o content
      fixedLoop o e path pages P rest
        (students ++ [mkStudent (dictGet info.id ("Student_" ++ toString (students.length + 1)))
                                (dictGet info.name "Unknown") content path
                                (some (start + 1, stop))])

/-- The fixed-pages branch (`if pages_per_student:`) of
`PDFService.extract_students_from_combined` (pdf_service.py lines 171-199). -/
def extractStudentsFixed (o : InfoOracle) (e : Bool) (path : String) (pages : List MPage)
    (P : Nat) : List Student :=
  fixedLoop o e path pages P (pyRange 0 pages.length P) []

/-- Mutable state of the marker-pattern loop (pdf_service.py lines 205-239):
`students`, `current_content`, `current_info`, `current_start`. -/
structure MState where
  students : List Student
  currentContent : List String
  currentInfo : InfoDict
  currentStart : Nat

/-- One iteration of `for page_num, page in enumerate(pdf.pages, start=1)` in
the marker branch (pdf_service.py lines 210-239): match the pattern against
the page's native text; if it matched and `current_content` is non-empty,
flush the accumulated unit with `page_range=(current_start, page_num - 1)`;
if it matched, overwrite `current_info` with `{"id": <match value>}`; finally
append the (possibly OCR-substituted) page text to `current_content`. -/
def markerStep (m : String → Option String) (e : Bool) (path : String) (pageNum : Nat)
    (p : MPage) (st : MState) : MState :=
  let text := p.native
  let mtch := m text
  let st1 : MState :=
    if mtch.isSome = true ∧ st.currentContent ≠ [] then
      { students := st.students ++
          [mkStudent (dictGet st.currentInfo.id ("Student_" ++ toString (st.students.length + 1)))
                     (dictGet st.currentInfo.name "Unknown")
                     (joinNN st.currentContent) path
                     (some (st.currentStart, pageNum - 1))],
        currentContent := [], currentInfo := st.currentInfo, currentStart := pageNum }
    else st
  let st2 : MState :=
    match mtch with
    | some v => { st1 with currentInfo := ⟨some v, none⟩ }
    | none => st1
  { st2 with currentContent := st2.currentContent ++ [resolveText e p] }

/-- The page loop of the marker branch, with 1-based page numbering. -/
def markerLoop (m : String → Option String) (e : Bool) (path : String) :
    Nat → List MPage → MState → MState
  | _, [], st => st
  | pageNum, p :: rest, st => markerLoop m e path (pageNum + 1) rest (markerStep m e path pageNum p st)

/-- The `# Save last student` epilogue (pdf_service.py lines 241-251): if
`current_content` is non-empty, resolve the info dict — via
`_extract_student_info` when `current_info` is empty, else `current_info`
itself — and append a final unit with `page_range=(current_start, len(pdf.pages))`. -/
def markerFinalize (o : InfoOracle) (path : String) (totalPages : Nat) (st : MState) :
    List Student :=
  if st.currentContent = [] then st.students
  else
    let content := joinNN st.currentContent
    let info := if st.currentInfo.id = none ∧ st.currentInfo.name = none
                then extractStudentInfo o content else st.currentInfo
    st.students ++
      [mkStudent (dictGet info.id ("Student_" ++ toString (st.students.length + 1)))
                 (dictGet info.name "Unknown") content path
                 (some (st.currentStart, totalPages))]

/-- The marker-pattern branch (`elif student_id_pattern:`) of
`PDFService.extract_students_from_combined` (pdf_service.py lines 201-251).
`m text` models `pattern.search(text)` returning
`match.group(1) if match.groups() else match.group()` (line 229), `none` when
the pattern does not match. -/
def extractStudentsMarker (o : InfoOracle) (m : String → Option String) (e : Bool)
    (path : String) (pages : List MPage) : List Student :=
  markerFinalize o path pages.length (markerLoop m e path 1 pages ⟨[], [], ⟨none, none⟩, 1⟩)

/-- Models `re.sub(r"[^\w\-]", "_", marker)` (pdf_service.py line 143, the
`split_pdf_by_marker` filename sanitisation the spec attributes to the
segmentation IDs): every character that is not a word character or a hyphen
becomes an underscore. -/
def sanitizeMarker (s : String) : String :=
  ⟨s.data.map (fun c => if c.isAlphanum ∨ c = '_' ∨ c = '-' then c else '_')⟩

/-- The 1-based page numbers at which the pattern matches, paired with the
match value, starting the numbering at `k`. -/
def matchList (m : String → Option String) : List MPage → Nat → List (Nat × String)
  | [], _ => []
  | p :: rest, k =>
      match m p.native with
      | some v => (k, v) :: matchList m rest (k + 1)
      | none => matchList m rest (k + 1)

/-- The OCR-independent observables of a segmented unit: id, name and
page range. -/
def obsOf (s : Student) : String × String × Option (Nat × Nat) := (s.id, s.name, s.page_range)

/-- Expected observables of the marker branch's output: a leading unit opened
at page `s0` with raw id `id0`, then one unit per boundary match `(k, v)`,
each closing the previous unit at `k - 1`; the last unit always runs to page
`M`.  Mid-scan units always carry name `"Unknown"` because `current_info`
never holds a `"name"` key in this branch. -/
def chainUnits (M : Nat) : String → Nat → List (Nat × String) →
    List (String × String × Option (Nat × Nat))
  | id0, s0, [] => [(cleanField id0, "Unknown", some (s0, M))]
  | id0, s0, (k, v) :: rest => (cleanField id0, "Unknown", some (s0, k - 1)) :: chainUnits M v k rest

/-- Models the `ElementGrade` dataclass (grade_result.py lines 6-28); Python
floats are modelled as rationals (no float arithmetic is performed by the
modelled operations). -/
structure ElementGrade where
  element_name : String
  marks_awarded : Rat
  max_marks : Rat
  feedback : String
deriving DecidableEq

/-- Placeholder element grade used as a `List.getD` default. -/
def dEG : ElementGrade := ⟨"", 0, 0, ""⟩

/-- Models the `GradeResult` dataclass (grade_result.py lines 40-55);
`graded_at` (a wall-clock timestamp) is outside the model. -/
structure GradeResult where
  student_id : String
  student_name : String
  element_grades : List ElementGrade
  overall_feedback : String
  ai_provider : String
  is_suggestion_only : Bool
  manually_edited : Bool
deriving DecidableEq

/-- Placeholder grade result used as a `List.getD` default. -/
def dGR : GradeResult := ⟨"", "", [], "", "", false, false⟩

/-- The `for grade in self.element_grades` loop of
`GradeResult.update_element_grade` (grade_result.py lines 74-82): on the
first grade whose `element_name` matches, set `marks_awarded`, set `feedback`
when one was supplied, and `break`; the returned flag records whether the
`manually_edited = True` line inside the loop ran. -/
def updateGrades (ename : String) (marks : Rat) (fb : Option String) :
    List ElementGrade → List ElementGrade × Bool
  | [] => ([], false)
  | g :: rest =>
      if g.element_name = ename then
        ({ g with marks_awarded := marks, feedback := fb.getD g.feedback } :: rest, true)
      else
        let r := updateGrades ename marks fb rest
        (g :: r.1, r.2)

/-- Models `GradeResult.update_element_grade(element_name, marks, feedback=None)`
(grade_result.py lines 74-82). -/
def GradeResult.update_element_grade (r : GradeResult) (ename : String) (marks : Rat)
    (fb : Option String) : GradeResult :=
  let u := updateGrades ename marks fb r.element_grades
  { r with element_grades := u.1,
           manually_edited := if u.2 then true else r.manually_edited }

/-- One entry of the `grades` list of the AI response dict
(grading_service.py lines 228-235): each key may be absent. -/
structure GradeData where
  criterion : Option String
  marks : Option Rat
  max_marks : Option Rat
  feedback : Option String
deriving DecidableEq

/-- The structured AI grading response dict consumed by
`GradingService._convert_ai_result` (grading_service.py lines 213-237): each
key may be absent (`dict.get` with a default is used for every read). -/
structure AiResult where
  student_id : Option String
  student_name : Option String
  grades : List GradeData
  overall_feedback : Option String
  ai_provider : Option String
deriving DecidableEq

/-- Models the `# If all else fails` fallback of
`BaseProvider.parse_grading_response` (base_provider.py lines 114-121): a
response that is not parseable JSON becomes a dict with
`student_id = student_name = "Unknown"`, empty `grades`, and the raw response
text as `overall_feedback` (the `parse_error` flag is not read by
`_convert_ai_result` and is not modelled). -/
def parseGradingFallback (response : String) : AiResult :=
  ⟨some "Unknown", some "Unknown", [], some response, none⟩

/-- Models `GradingService._convert_ai_result` (grading_service.py lines
213-237): every field is read with `dict.get`, falling back to the unit's own
id/name for the identity fields; each entry of `grades` becomes an
`ElementGrade`; `is_suggestion_only` is the configured marking mode. -/
def convertAiResult (suggestions : Bool) (s : Student) (ai : AiResult) : GradeResult :=
  { student_id := ai.student_id.getD s.id,
    student_name := ai.student_name.getD s.name,
    element_grades := ai.grades.map (fun g =>
      { element_name := g.criterion.getD "", marks_awarded := g.marks.getD 0,
        max_marks := g.max_marks.getD 0, feedback := g.feedback.getD "" }),
    overall_feedback := ai.overall_feedback.getD "",
    ai_provider := ai.ai_provider.getD "",
    is_suggestion_only := suggestions,
    manually_edited := false }

/-- The body of the `for i, student in enumerate(session.students)` loop of
`GradingService.grade_all` (grading_service.py lines 176-203): a successful
generation call is converted via `_convert_ai_result`; an exception is caught
and recorded as a `GradeResult` with empty `element_grades`,
`overall_feedback = "Error during grading: <e>"` and `ai_provider = "Error"`
(dataclass defaults fill the remaining fields). -/
def gradeOne (suggestions : Bool) (gradeFn : Student → Except String AiResult)
    (s : Student) : GradeResult :=
  match gradeFn s with
  | Except.ok ai => convertAiResult suggestions s ai
  | Except.error msg =>
      { student_id := s.id, student_name := s.name, element_grades := [],
        overall_feedback := "Error during grading: " ++ msg, ai_provider := "Error",
        is_suggestion_only := false, manually_edited := false }

/-- Models the result list built by `GradingService.grade_all`
(grading_service.py lines 176-211): one `GradeResult` is appended per
student, in student order; the loop never re-raises, so the function is
total. -/
def gradeAll (suggestions : Bool) (gradeFn : Student → Except String AiResult)
    (students : List Student) : List GradeResult :=
  students.map (gradeOne suggestions gradeFn)

/-- Info oracle whose patterns never match (e.g. every regex of
`_extract_student_info` fails on the empty string). -/
def noneOracle : InfoOracle := ⟨fun _ => none, fun _ => none⟩

/-- Marker function that never matches. -/
def constNoneMarker : String → Option String := fun _ => none

/-- Path constant used by the concrete witnesses. -/
def wPath : String := "combined.pdf"

/-- Concrete 3-page document for the C1 witness. -/
def wPagesF : List MPage := [⟨"alpha", ""⟩, ⟨"beta", ""⟩, ⟨"gamma", ""⟩]

/-- Concrete 2-page all-blank document for the C5 evaluation. -/
def wPagesC5 : List MPage := [⟨"", ""⟩, ⟨"", ""⟩]

/-- Concrete 1-page document with no marker match, for the C3 witness. -/
def wPages1 : List MPage := [⟨"hello", ""⟩]

/-- Concrete marker matcher for the C2/C4 witnesses: matches the page whose
text is `"ID-2"`, capturing `"2"`. -/
def wMarker2 : String → Option String := fun s => if s = "ID-2" then some "2" else none

/-- Concrete 3-page document whose second page matches `wMarker2`. -/
def wPagesM : List MPage := [⟨"alpha", ""⟩, ⟨"ID-2", ""⟩, ⟨"beta", ""⟩]

/-- Concrete marker matcher for the C4 counterexample: the capture group
contains a space (e.g. Python pattern `r"ID: (X Y)"`). -/
def mC4 : String → Option String := fun s => if s = "ID: X Y" then some "X Y" else none

/-- Concrete 1-page document matching `mC4` on its only page. -/
def wPagesC4 : List MPage := [⟨"ID: X Y", ""⟩]

/-- Concrete marker matcher for the C10 witness. -/
def mMark : String → Option String := fun s => if s = "MARK" then some "M-1" else none

/-- Concrete 2-page document for the C10 witness: page 1 has only OCR text,
page 2 matches `mMark`. -/
def wPages10 : List MPage := [⟨"", "ocr text"⟩, ⟨"MARK", ""⟩]

/-- Concrete student with resolved identity, for the C6/C7 witnesses. -/
def wStudentA : Student := mkStudent "S-1" "Alice" "essay one" "a.pdf" none

/-- Second concrete student for the C6 witness. -/
def wStudentB : Student := mkStudent "S-2" "Bob" "essay two" "b.pdf" none

/-- Concrete generation capability for the C6 witness: raises on the first
student, succeeds on the second. -/
def wGradeFn : Student → Except String AiResult := fun s =>
  if s.id = "S-1" then Except.error "boom"
  else Except.ok ⟨some "S-2", none, [⟨some "Content", some 5, some 10, some "ok"⟩],
                  some "good", some "prov"⟩

/-- Concrete element grades for the C8 witness. -/
def wGrades : List ElementGrade := [⟨"Intro", 3, 5, "ok"⟩, ⟨"Body", 7, 10, "fine"⟩]

/-- Concrete grade result for the C8 witness. -/
def wResult : GradeResult := ⟨"S-1", "Alice", wGrades, "overall", "prov", false, false⟩

/-- Concrete marker matcher for the C9 counterexample: the capture group is
pure whitespace (Python pattern `r"Student(\s+)ID"`). -/
def m9 : String → Option String := fun s => if s = "Student ID" then some " " else none

/-- Concrete 1-page document matching `m9`. -/
def wPages9 : List MPage := [⟨"Student ID", ""⟩]

/-- The unit produced by the whitespace-capture run, for the C9 witness. -/
def wStudent9 : Student :=
  (extractStudentsMarker noneOracle m9 false wPath wPages9).getD 0 dStudent

/-! ### List and range helper lemmas -/

theorem list_getD_map {α β : Type} (f : α → β) (d : α) :
    ∀ (l : List α) (i : Nat), (l.map f).getD i (f d) = f (l.getD i d) := by
  intro l
  induction l with
  | nil => intro i; simp
  | cons a t ih =>
    intro i
    cases i with
    | zero => simp
    | succ j =>
      simp only [List.map_cons, List.getD_cons_succ]
      exact ih j

theorem pyRangeAux_irrel (stop step : Nat) :
    ∀ fuel fuel' start, stop - start ≤ fuel → stop - start ≤ fuel' →
      pyRangeAux stop step fuel start = pyRangeAux stop step fuel' start := by
  intro fuel
  induction fuel with
  | zero =>
    intro fuel' start h h'
    cases fuel' with
    | zero => rfl
    | succ f' =>
      show pyRangeAux stop step 0 start = pyRangeAux stop step (f' + 1) start
      rw [pyRangeAux, pyRangeAux, if_neg]
      rintro ⟨-, h2⟩
      omega
  | succ f ih =>
    intro fuel' start h h'
    cases fuel' with
    | zero =>
      rw [pyRangeAux, pyRangeAux, if_neg]
      rintro ⟨-, h2⟩
      omega
    | succ f' =>
      rw [pyRangeAux, pyRangeAux]
      by_cases hc : 0 < step ∧ start < stop
      · rw [if_pos hc, if_pos hc, ih f' (start + step) (by omega) (by omega)]
      · rw [if_neg hc, if_neg hc]

theorem pyRange_eq_nil {start stop step : Nat} (h : ¬(0 < step ∧ start < stop)) :
    pyRange start stop step = [] := by
  unfold pyRange
  cases hgap : stop - start with
  | zero => rfl
  | succ g => rw [pyRangeAux, if_neg h]

theorem pyRange_eq_cons {start stop step : Nat} (hs : 0 < step) (hlt : start < stop) :
    pyRange start stop step = start :: pyRange (start + step) stop step := by
  unfold pyRange
  have h1 : stop - start = (stop - start - 1) + 1 := by omega
  rw [h1, pyRangeAux, if_pos ⟨hs, hlt⟩]
  congr 1
  exact pyRangeAux_irrel stop step _ _ _ (by omega) (by omega)

theorem pyRange_char {P : Nat} (hP : 0 < P) (N : Nat) :
    ∀ gap s, N - s ≤ gap →
      pyRange s N P = (List.range ((N - s + P - 1) / P)).map (fun i => s + i * P) := by
  intro gap
  induction gap with
  | zero =>
    intro s h
    rw [pyRange_eq_nil (by rintro ⟨-, h2⟩; omega)]
    have h2 : N - s = 0 := by omega
    rw [h2]
    have h3 : (0 + P - 1) / P = 0 := Nat.div_eq_of_lt (by omega)
    rw [h3]
    simp
  | succ g ih =>
    intro s h
    by_cases hlt : s < N
    · rw [pyRange_eq_cons hP hlt, ih (s + P) (by omega)]
      have e2 : (N - (s + P) + P - 1) / P = (N - s - 1) / P := by
        rcases le_or_lt P (N - s) with hge | hlt2
        · congr 1
          omega
        · have l1 : N - (s + P) + P - 1 = P - 1 := by omega
          have l2 : (P - 1) / P = 0 := Nat.div_eq_of_lt (by omega)
          have l3 : (N - s - 1) / P = 0 := Nat.div_eq_of_lt (by omega)
          rw [l1, l2, l3]
      have e3 : (N - s + P - 1) / P = (N - s - 1) / P + 1 := by
        have l1 : N - s + P - 1 = (N - s - 1) + P := by omega
        rw [l1, Nat.add_div_right _ hP]
      rw [e2, e3, List.range_succ_eq_map]
      simp only [List.map_cons, List.map_map]
      congr 1
      · omega
      · apply List.map_congr_left
        intro i _
        simp [Function.comp, Nat.succ_eq_add_one]
        ring
    · rw [pyRange_eq_nil (by rintro ⟨-, h2⟩; omega)]
      have h2 : N - s = 0 := by omega
      rw [h2]
      have h3 : (0 + P - 1) / P = 0 := Nat.div_eq_of_lt (by omega)
      rw [h3]
      simp

theorem pyRange_zero_char {P : Nat} (hP : 0 < P) (N : Nat) :
    pyRange 0 N P = (List.range ((N + P - 1) / P)).map (fun i => i * P) := by
  have := pyRange_char hP N N 0 (by omega)
  simpa using this

/-! ### Fixed-pages branch: characterization -/

theorem fixedLoop_map_pr (o : InfoOracle) (e : Bool) (path : String) (pages : List MPage)
    (P : Nat) :
    ∀ (starts : List Nat) (acc : List Student),
      (fixedLoop o e path pages P starts acc).map Student.page_range
        = acc.map Student.page_range
          ++ starts.map (fun s => some (s + 1, min (s + P) pages.length)) := by
  intro starts
  induction starts with
  | nil => intro acc; simp [fixedLoop]
  | cons s rest ih =>
    intro acc
    rw [fixedLoop, ih]
    simp [mkStudent]

theorem fixed_map_pr_char (o : InfoOracle) (e : Bool) (path : String) (pages : List MPage)
    (P : Nat) (hP : 1 ≤ P) :
    (extractStudentsFixed o e path pages P).map Student.page_range
      = (List.range ((pages.length + P - 1) / P)).map
          (fun j => some (j * P + 1, min (j * P + P) pages.length)) := by
  rw [extractStudentsFixed, fixedLoop_map_pr, pyRange_zero_char (by omega)]
  simp [List.map_map, Function.comp]

theorem fixed_length (o : InfoOracle) (e : Bool) (path : String) (pages : List MPage)
    (P : Nat) (hP : 1 ≤ P) :
    (extractStudentsFixed o e path pages P).length = (pages.length + P - 1) / P := by
  have h := congrArg List.length (fixed_map_pr_char o e path pages P hP)
  simpa using h

theorem fixed_pr_key (o : InfoOracle) (e : Bool) (path : String) (pages : List MPage)
    (P : Nat) (hP : 1 ≤ P) :
    ∀ i, i < (pages.length + P - 1) / P →
      ((extractStudentsFixed o e path pages P).getD i dStudent).page_range
        = some (P * i + 1, min (P * i + P) pages.length) := by
  intro i hi
  have h0 : ((extractStudentsFixed o e path pages P).map Student.page_range).getD i
        (Student.page_range dStudent)
      = Student.page_range ((extractStudentsFixed o e path pages P).getD i dStudent) :=
    list_getD_map Student.page_range dStudent _ i
  have h1 : ((List.range ((pages.length + P - 1) / P)).map
        (fun j => some (j * P + 1, min (j * P + P) pages.length))).getD i
          (Student.page_range dStudent)
      = some (i * P + 1, min (i * P + P) pages.length) := by
    rw [List.getD_eq_getElem _ _ (by simpa using hi)]
    simp
  rw [← h0, fixed_map_pr_char o e path pages P hP, h1]
  congr 2 <;> [skip; congr 1] <;> ring

/-- Claim C1: for every combined document with `N ≥ 1` pages processed by the
fixed-pages strategy with positive `pages_per_student = P`, segmentation
yields exactly `ceil(N/P)` StudentUnits in document order; the `i`-th
(0-based) unit's 1-based inclusive page range is
`(P*i + 1, min(P*i + P, N))`; every non-final block spans exactly `P` pages;
the final block ends at page `N` and spans at most `P` pages; and every page
`1 ≤ k ≤ N` is covered by exactly one unit. -/
theorem C1_fixed_pages_partition (o : InfoOracle) (e : Bool) (path : String)
    (pages : List MPage) (P : Nat) (hP : 1 ≤ P) (hN : 1 ≤ pages.length) :
    (extractStudentsFixed o e path pages P).length = (pages.length + P - 1) / P ∧
    (∀ i, i < (pages.length + P - 1) / P →
      ((extractStudentsFixed o e path pages P).getD i dStudent).page_range
        = some (P * i + 1, min (P * i + P) pages.length)) ∧
    (∀ i, i + 1 < (pages.length + P - 1) / P →
      ((extractStudentsFixed o e path pages P).getD i dStudent).page_range
        = some (P * i + 1, P * i + P)) ∧
    ((extractStudentsFixed o e path pages P).getD ((pages.length + P - 1) / P - 1)
        dStudent).page_range
      = some (P * ((pages.length + P - 1) / P - 1) + 1, pages.length) ∧
    pages.length ≤ P * ((pages.length + P - 1) / P - 1) + P ∧
    (∀ k, 1 ≤ k → k ≤ pages.length →
      ∃! i, i < (pages.length + P - 1) / P ∧
        ∃ a b, ((extractStudentsFixed o e path pages P).getD i dStudent).page_range
            = some (a, b) ∧ a ≤ k ∧ k ≤ b) := by
  have hPpos : 0 < P := by omega
  have hcnt : (pages.length + P - 1) / P = (pages.length - 1) / P + 1 := by
    rw [show pages.length + P - 1 = (pages.length - 1) + P by omega, Nat.add_div_right _ hPpos]
  have hdm := Nat.div_add_mod (pages.length - 1) P
  have hmod := Nat.mod_lt (pages.length - 1) hPpos
  refine ⟨fixed_length o e path pages P hP, fixed_pr_key o e path pages P hP, ?_, ?_, ?_, ?_⟩
  · intro i hi
    rw [fixed_pr_key o e path pages P hP i (by omega)]
    have h1 : i + 1 ≤ (pages.length - 1) / P := by omega
    have h2 : P * (i + 1) ≤ P * ((pages.length - 1) / P) := Nat.mul_le_mul_left P h1
    have h3 : P * (i + 1) = P * i + P := by ring
    congr 2
    exact Nat.min_eq_left (by omega)
  · have hcpos : 0 < (pages.length + P - 1) / P := by
      rw [hcnt]
      exact Nat.succ_pos _
    have hc1 : (pages.length + P - 1) / P - 1 < (pages.length + P - 1) / P :=
      Nat.sub_lt hcpos Nat.one_pos
    have hkey := fixed_pr_key o e path pages P hP ((pages.length + P - 1) / P - 1) hc1
    rw [hkey]
    have h4 : (pages.length + P - 1) / P - 1 = (pages.length - 1) / P := by
      rw [hcnt]
      exact Nat.succ_sub_one _
    rw [h4]
    congr 2
    exact Nat.min_eq_right (by omega)
  · have h4 : (pages.length + P - 1) / P - 1 = (pages.length - 1) / P := by
      rw [hcnt]
      exact Nat.succ_sub_one _
    rw [h4]
    omega
  · intro k hk1 hkN
    have hda := Nat.div_add_mod (k - 1) P
    have hmk := Nat.mod_lt (k - 1) hPpos
    have hidx : (k - 1) / P ≤ (pages.length - 1) / P := Nat.div_le_div_right (by omega)
    have hilt : (k - 1) / P < (pages.length + P - 1) / P := by omega
    have hkey := fixed_pr_key o e path pages P hP ((k - 1) / P) hilt
    refine ⟨(k - 1) / P, ⟨hilt, P * ((k - 1) / P) + 1,
      min (P * ((k - 1) / P) + P) pages.length, hkey, by omega,
      le_min (by omega) (by omega)⟩, ?_⟩
    rintro y ⟨hy, a, b, hpr, hak, hkb⟩
    rw [fixed_pr_key o e path pages P hP y hy, Option.some_inj, Prod.mk.injEq] at hpr
    obtain ⟨ha, hb⟩ := hpr
    have hmin : min (P * y + P) pages.length ≤ P * y + P := min_le_left _ _
    have hkb2 : k ≤ P * y + P := by omega
    have h5 : y ≤ (k - 1) / P := by
      rw [Nat.le_div_iff_mul_le hPpos]
      have hyP : y * P = P * y := by ring
      omega
    have h6 : (k - 1) / P < y + 1 := by
      rw [Nat.div_lt_iff_lt_mul hPpos]
      have hyP : (y + 1) * P = P * y + P := by ring
      omega
    omega

/-- Witness for C1 at a concrete input: a 3-page document split with
`pages_per_student = 2` yields `ceil(3/2) = 2` units, the first spanning
pages 1-2. -/
theorem C1_fixed_pages_partition_witness :
    (1 ≤ 2 ∧ 1 ≤ wPagesF.length) ∧
    (extractStudentsFixed noneOracle false wPath wPagesF 2).length
      = (wPagesF.length + 2 - 1) / 2 ∧
    ((extractStudentsFixed noneOracle false wPath wPagesF 2).getD 0 dStudent).page_range
      = some (2 * 0 + 1, min (2 * 0 + 2) wPagesF.length) :=
  ⟨⟨by decide, by decide⟩,
   (C1_fixed_pages_partition noneOracle false wPath wPagesF 2 (by decide) (by decide)).1,
   (C1_fixed_pages_partition noneOracle false wPath wPagesF 2 (by decide) (by decide)).2.1 0
     (by decide)⟩

/-- Claim C5 (code-bug evidence): a fixed-pages block whose text matches no
ID pattern gets id `"Unknown"`, not the positional placeholder `"Student_N"`
the spec states — `_extract_student_info` always returns a dict containing
the `"id"` key, so the `f"Student_<len(students) + 1>"` default at
pdf_service.py line 194 can never fire.  Evaluated here on a 2-page document
with blank pages and `pages_per_student = 1`: both units get `"Unknown"`. -/
theorem C5_fixed_placeholder_id :
    (extractStudentsFixed noneOracle false wPath wPagesC5 1).map Student.id
      = ["Unknown", "Unknown"]
    ∧ ("Unknown" : String) ≠ "Student_1" ∧ ("Unknown" : String) ≠ "Student_2" := by
  refine ⟨by decide, by decide, by decide⟩

/-! ### Marker branch: step lemmas -/

theorem markerStep_nomatch (m : String → Option String) (e : Bool) (path : String)
    (pageNum : Nat) (p : MPage) (st : MState) (hm : m p.native = none) :
    markerStep m e path pageNum p st
      = ⟨st.students, st.currentContent ++ [resolveText e p], st.currentInfo,
         st.currentStart⟩ := by
  unfold markerStep
  simp [hm]

theorem markerStep_match_cons (m : String → Option String) (e : Bool) (path : String)
    (pageNum : Nat) (p : MPage) (st : MState) (v : String) (hm : m p.native = some v)
    (hcc : st.currentContent ≠ []) :
    markerStep m e path pageNum p st
      = ⟨st.students ++
          [mkStudent (dictGet st.currentInfo.id ("Student_" ++ toString (st.students.length + 1)))
                     (dictGet st.currentInfo.name "Unknown")
                     (joinNN st.currentContent) path
                     (some (st.currentStart, pageNum - 1))],
         [resolveText e p], ⟨some v, none⟩, pageNum⟩ := by
  unfold markerStep
  simp [hm, hcc]

theorem markerStep_match_nil (m : String → Option String) (e : Bool) (path : String)
    (pageNum : Nat) (p : MPage) (st : MState) (v : String) (hm : m p.native = some v)
    (hcc : st.currentContent = []) :
    markerStep m e path pageNum p st
      = ⟨st.students, [resolveText e p], ⟨some v, none⟩, st.currentStart⟩ := by
  unfold markerStep
  simp [hm, hcc]

theorem markerLoop_nomatch (m : String → Option String) (e : Bool) (path : String) :
    ∀ (rest : List MPage) (pageNum : Nat) (st : MState),
      (∀ p ∈ rest, m p.native = none) →
      markerLoop m e path pageNum rest st
        = ⟨st.students, st.currentContent ++ rest.map (resolveText e), st.currentInfo,
           st.currentStart⟩ := by
  intro rest
  induction rest with
  | nil =>
    intro pageNum st h
    cases st
    simp [markerLoop]
  | cons p rest ih =>
    intro pageNum st h
    rw [markerLoop, markerStep_nomatch m e path pageNum p st (h p (by simp)),
        ih (pageNum + 1) _ (fun q hq => h q (by simp [hq]))]
    simp

theorem marker_nomatch_char (o : InfoOracle) (m : String → Option String) (e : Bool)
    (path : String) (pages : List MPage) (hN : 1 ≤ pages.length)
    (hnm : ∀ p ∈ pages, m p.native = none) :
    extractStudentsMarker o m e path pages
      = [mkStudent ((o.idMatch (joinNN (pages.map (resolveText e)))).getD "Unknown")
                   ((o.nameMatch (joinNN (pages.map (resolveText e)))).getD "Unknown")
                   (joinNN (pages.map (resolveText e))) path (some (1, pages.length))] := by
  cases pages with
  | nil => simp at hN
  | cons p rest =>
    unfold extractStudentsMarker
    rw [markerLoop, markerStep_nomatch m e path 1 _ _ (hnm p (by simp)),
        markerLoop_nomatch m e path rest 2 _ (fun q hq => hnm q (by simp [hq]))]
    unfold markerFinalize
    simp [extractStudentInfo, dictGet]

/-- Claim C3: marker-pattern segmentation of a document with `M ≥ 1` pages on
which no page matches the pattern yields exactly one StudentUnit spanning
pages `(1, M)`, with identity resolved by `_extract_student_info` (the
IdentityExtractor) over the unit's concatenated text; the function is total,
so no error is raised. -/
theorem C3_marker_zero_matches (o : InfoOracle) (m : String → Option String) (e : Bool)
    (path : String) (pages : List MPage) (hN : 1 ≤ pages.length)
    (hnm : ∀ p ∈ pages, m p.native = none) :
    extractStudentsMarker o m e path pages
      = [mkStudent ((o.idMatch (joinNN (pages.map (resolveText e)))).getD "Unknown")
                   ((o.nameMatch (joinNN (pages.map (resolveText e)))).getD "Unknown")
                   (joinNN (pages.map (resolveText e))) path (some (1, pages.length))] :=
  marker_nomatch_char o m e path pages hN hnm

/-- Witness for C3 at a concrete input: a 1-page document with no match
yields the single whole-document unit. -/
theorem C3_marker_zero_matches_witness :
    (1 ≤ wPages1.length ∧ (∀ p ∈ wPages1, constNoneMarker p.native = none)) ∧
    extractStudentsMarker noneOracle constNoneMarker false wPath wPages1
      = [⟨"Unknown", "Unknown", "hello", "combined.pdf", some (1, 1)⟩] :=
  ⟨⟨by decide, by decide⟩,
   (C3_marker_zero_matches noneOracle constNoneMarker false wPath wPages1 (by decide)
      (by decide)).trans (by decide)⟩

/-! ### Marker branch: boundary characterization -/

theorem cleanField_unknown : cleanField "Unknown" = "Unknown" := by decide

theorem getD_mem {α : Type} {l : List α} {i : Nat} (h : i < l.length) (d : α) :
    l.getD i d ∈ l := by
  rw [List.getD_eq_getElem _ _ h]
  exact List.getElem_mem _

theorem getD_append_at {α : Type} (x : α) (d : α) :
    ∀ (l t : List α), (l ++ x :: t).getD l.length d = x := by
  intro l
  induction l with
  | nil => intro t; simp
  | cons a l ih => intro t; simpa using ih t

theorem getD_append_after {α : Type} (x : α) (d : α) :
    ∀ (l t : List α), (l ++ x :: t).getD (l.length + 1) d = t.getD 0 d := by
  intro l
  induction l with
  | nil => intro t; simp
  | cons a l ih => intro t; simpa using ih t

theorem matchList_ge (m : String → Option String) :
    ∀ (l : List MPage) (n : Nat) (kv : Nat × String),
      kv ∈ matchList m l n → n ≤ kv.1 ∧ kv.1 < n + l.length := by
  intro l
  induction l with
  | nil => intro n kv h; simp [matchList] at h
  | cons p rest ih =>
    intro n kv h
    rw [matchList] at h
    cases hm : m p.native with
    | none =>
      rw [hm] at h
      have := ih (n + 1) kv h
      simp only [List.length_cons]
      omega
    | some v =>
      rw [hm] at h
      simp only [List.mem_cons] at h
      rcases h with rfl | h
      · simp
      · have := ih (n + 1) kv h
        simp only [List.length_cons]
        omega

theorem matchList_mem (m : String → Option String) :
    ∀ (l : List MPage) (n j : Nat) (v : String), j < l.length →
      m ((l.getD j dMPage).native) = some v → (n + j, v) ∈ matchList m l n := by
  intro l
  induction l with
  | nil => intro n j v h; simp at h
  | cons p rest ih =>
    intro n j v hj hv
    rw [matchList]
    cases j with
    | zero =>
      simp only [List.getD_cons_zero] at hv
      rw [hv]
      simp
    | succ j' =>
      have hv' : m ((rest.getD j' dMPage).native) = some v := by
        simpa using hv
      have hmem := ih (n + 1) j' v (by simpa using hj) hv'
      have harith : n + (j' + 1) = (n + 1) + j' := by omega
      rw [harith]
      cases hm : m p.native
      · exact hmem
      · exact List.mem_cons_of_mem _ hmem

theorem matchList_sorted (m : String → Option String) :
    ∀ (l : List MPage) (n : Nat), (matchList m l n).Pairwise (fun a b => a.1 < b.1) := by
  intro l
  induction l with
  | nil => intro n; simp [matchList]
  | cons p rest ih =>
    intro n
    rw [matchList]
    cases hm : m p.native with
    | none => exact ih (n + 1)
    | some v =>
      refine List.Pairwise.cons ?_ (ih (n + 1))
      intro b hb
      have := (matchList_ge m rest (n + 1) b hb).1
      simpa using by omega

theorem chainUnits_length (M : Nat) :
    ∀ (l : List (Nat × String)) (id0 : String) (s0 : Nat),
      (chainUnits M id0 s0 l).length = l.length + 1 := by
  intro l
  induction l with
  | nil => intro id0 s0; simp [chainUnits]
  | cons kv rest ih =>
    intro id0 s0
    cases kv
    simp [chainUnits, ih]

theorem chainUnits_head_nil (M : Nat) (id0 : String) (s0 : Nat)
    (d : String × String × Option (Nat × Nat)) :
    (chainUnits M id0 s0 []).getD 0 d = (cleanField id0, "Unknown", some (s0, M)) := by
  simp [chainUnits]

theorem chainUnits_head_cons (M : Nat) (id0 : String) (s0 k : Nat) (v : String)
    (l2 : List (Nat × String)) (d : String × String × Option (Nat × Nat)) :
    (chainUnits M id0 s0 ((k, v) :: l2)).getD 0 d
      = (cleanField id0, "Unknown", some (s0, k - 1)) := by
  simp [chainUnits]

theorem chainUnits_split (M : Nat) (k : Nat) (v : String) (l2 : List (Nat × String))
    (d : String × String × Option (Nat × Nat)) :
    ∀ (l1 : List (Nat × String)) (id0 : String) (s0 : Nat),
      (∃ lastid lasts,
        (chainUnits M id0 s0 (l1 ++ (k, v) :: l2)).getD l1.length d
          = (cleanField lastid, "Unknown", some (lasts, k - 1)))
      ∧ (chainUnits M id0 s0 (l1 ++ (k, v) :: l2)).getD (l1.length + 1) d
          = (chainUnits M v k l2).getD 0 d := by
  intro l1
  induction l1 with
  | nil =>
    intro id0 s0
    constructor
    · exact ⟨id0, s0, by simp [chainUnits]⟩
    · simp [chainUnits]
  | cons kv l1 ih =>
    intro id0 s0
    cases kv with
    | mk k1 v1 =>
      constructor
      · obtain ⟨lastid, lasts, h⟩ := (ih v1 k1).1
        exact ⟨lastid, lasts, by simpa [chainUnits] using h⟩
      · have h := (ih v1 k1).2
        simpa [chainUnits] using h

theorem markerLoop_obs (o : InfoOracle) (m : String → Option String) (e : Bool) (path : String)
    (M : Nat) :
    ∀ (rest : List MPage) (pageNum : Nat) (students : List Student) (cc : List String)
      (info : InfoDict) (cs : Nat),
      cc ≠ [] → info.name = none →
      (info.id.isSome = true ∨ ∃ p ∈ rest, (m p.native).isSome = true) →
      (markerFinalize o path M
          (markerLoop m e path pageNum rest ⟨students, cc, info, cs⟩)).map obsOf
        = students.map obsOf
          ++ chainUnits M (dictGet info.id ("Student_" ++ toString (students.length + 1))) cs
               (matchList m rest pageNum) := by
  intro rest
  induction rest with
  | nil =>
    intro pageNum students cc info cs hcc hname hdisj
    rcases hdisj with hs | ⟨p, hp, -⟩
    · obtain ⟨idv, hid⟩ := Option.isSome_iff_exists.mp hs
      rw [markerLoop]
      unfold markerFinalize
      rw [if_neg hcc]
      have hcond : ¬(info.id = none ∧ info.name = none) := by
        rw [hid]
        simp
      simp only [hcond, if_false, if_neg hcond]
      simp [matchList, chainUnits, hid, dictGet, hname, mkStudent, obsOf, cleanField_unknown]
    · exact absurd hp (List.not_mem_nil p)
  | cons p rest ih =>
    intro pageNum students cc info cs hcc hname hdisj
    rw [markerLoop]
    cases hm : m p.native with
    | none =>
      rw [markerStep_nomatch m e path pageNum p _ hm]
      have hdisj' : info.id.isSome = true ∨ ∃ q ∈ rest, (m q.native).isSome = true := by
        rcases hdisj with hs | ⟨q, hq, hqs⟩
        · exact Or.inl hs
        · rcases List.mem_cons.mp hq with rfl | hq'
          · rw [hm] at hqs
            simp at hqs
          · exact Or.inr ⟨q, hq', hqs⟩
      rw [ih (pageNum + 1) students (cc ++ [resolveText e p]) info cs (by simp) hname hdisj']
      rw [matchList, hm]
    | some v =>
      rw [markerStep_match_cons m e path pageNum p _ v hm hcc]
      rw [ih (pageNum + 1) _ [resolveText e p] ⟨some v, none⟩ pageNum (by simp) rfl
            (Or.inl rfl)]
      rw [matchList, hm]
      simp only [List.map_append, List.length_append, List.map_cons, List.map_nil]
      rw [chainUnits]
      simp [obsOf, mkStudent, dictGet, hname, cleanField_unknown, List.append_assoc]

theorem student_one_string : "Student_" ++ toString (0 + 1) = "Student_1" := by decide

theorem extractMarker_obs (o : InfoOracle) (m : String → Option String) (e : Bool)
    (path : String) (p1 : MPage) (rest : List MPage)
    (hm : (m p1.native).isSome = true ∨ ∃ p ∈ rest, (m p.native).isSome = true) :
    (extractStudentsMarker o m e path (p1 :: rest)).map obsOf
      = chainUnits (p1 :: rest).length (dictGet (m p1.native) "Student_1") 1
          (matchList m rest 2) := by
  unfold extractStudentsMarker
  rw [markerLoop]
  cases hm1 : m p1.native with
  | none =>
    have hrest : ∃ p ∈ rest, (m p.native).isSome = true := by
      rcases hm with hs | hr
      · rw [hm1] at hs
        simp at hs
      · exact hr
    rw [markerStep_nomatch m e path 1 p1 _ hm1]
    simp only [List.nil_append]
    rw [markerLoop_obs o m e path (p1 :: rest).length rest 2 [] [resolveText e p1]
          ⟨none, none⟩ 1 (by simp) rfl (Or.inr hrest)]
    simp [dictGet, student_one_string]
  | some v =>
    rw [markerStep_match_nil m e path 1 p1 _ v hm1 rfl]
    rw [markerLoop_obs o m e path (p1 :: rest).length rest 2 [] [resolveText e p1]
          ⟨some v, none⟩ 1 (by simp) rfl (Or.inl rfl)]
    simp [dictGet]

/-- Claim C2: in marker-pattern segmentation, a pattern match on page `k`
(1-based, `k ≥ 2`, so at least one page has been accumulated) closes the
accumulated unit with its page range ending at `k - 1` and opens a new unit
whose page range starts at `k`; the matching page belongs to the new unit
(its range contains `k`). -/
theorem C2_marker_boundary_close (o : InfoOracle) (m : String → Option String) (e : Bool)
    (path : String) (pages : List MPage) (k : Nat) (hk2 : 2 ≤ k) (hkM : k ≤ pages.length)
    (hmatch : (m ((pages.getD (k - 1) dMPage).native)).isSome = true) :
    ∃ i, i + 1 < (extractStudentsMarker o m e path pages).length ∧
      (∃ a, ((extractStudentsMarker o m e path pages).getD i dStudent).page_range
          = some (a, k - 1)) ∧
      (∃ b, ((extractStudentsMarker o m e path pages).getD (i + 1) dStudent).page_range
          = some (k, b) ∧ k ≤ b) := by
  cases pages with
  | nil => simp at hkM; omega
  | cons p1 rest =>
    obtain ⟨v, hv⟩ := Option.isSome_iff_exists.mp hmatch
    have hgetd : (p1 :: rest).getD (k - 1) dMPage = rest.getD (k - 2) dMPage := by
      rw [show k - 1 = (k - 2) + 1 by omega, List.getD_cons_succ]
    rw [hgetd] at hv
    have hjlt : k - 2 < rest.length := by
      simp only [List.length_cons] at hkM
      omega
    have hmem : (2 + (k - 2), v) ∈ matchList m rest 2 := matchList_mem m rest 2 (k - 2) v hjlt hv
    rw [show 2 + (k - 2) = k by omega] at hmem
    obtain ⟨l1, l2, hsplit⟩ := List.append_of_mem hmem
    have hpm : ∃ p ∈ rest, (m p.native).isSome = true :=
      ⟨rest.getD (k - 2) dMPage, getD_mem hjlt dMPage, by rw [hv]; rfl⟩
    have hobs := extractMarker_obs o m e path p1 rest (Or.inr hpm)
    rw [hsplit] at hobs
    have hlen : (extractStudentsMarker o m e path (p1 :: rest)).length
        = l1.length + l2.length + 2 := by
      have h1 := congrArg List.length hobs
      rw [List.length_map, chainUnits_length] at h1
      simp only [List.length_append, List.length_cons] at h1
      omega
    refine ⟨l1.length, by omega, ?_, ?_⟩
    · obtain ⟨⟨lastid, lasts, hat⟩, -⟩ := chainUnits_split (p1 :: rest).length k v l2
        (obsOf dStudent) l1 (dictGet (m p1.native) "Student_1") 1
      have hproj := list_getD_map obsOf dStudent (extractStudentsMarker o m e path (p1 :: rest))
        l1.length
      rw [hobs, hat] at hproj
      refine ⟨lasts, ?_⟩
      have hpr := congrArg (fun t => t.2.2) hproj
      simpa [obsOf] using hpr.symm
    · obtain ⟨-, hafter⟩ := chainUnits_split (p1 :: rest).length k v l2 (obsOf dStudent) l1
        (dictGet (m p1.native) "Student_1") 1
      have hproj := list_getD_map obsOf dStudent (extractStudentsMarker o m e path (p1 :: rest))
        (l1.length + 1)
      rw [hobs, hafter] at hproj
      cases l2 with
      | nil =>
        rw [chainUnits_head_nil] at hproj
        refine ⟨(p1 :: rest).length, ?_, hkM⟩
        have hpr := congrArg (fun t => t.2.2) hproj
        simpa [obsOf] using hpr.symm
      | cons kv2 l2' =>
        cases kv2 with
        | mk k2 v2 =>
          rw [chainUnits_head_cons] at hproj
          have hsorted := matchList_sorted m rest 2
          rw [hsplit] at hsorted
          have hsub : List.Sublist ((k, v) :: (k2, v2) :: l2')
              (l1 ++ (k, v) :: (k2, v2) :: l2') :=
            List.sublist_append_right l1 _
          have hp2 := hsorted.sublist hsub
          have hklt : k < k2 := by
            have := (List.pairwise_cons.mp hp2).1 (k2, v2) (by simp)
            simpa using this
          refine ⟨k2 - 1, ?_, by omega⟩
          have hpr := congrArg (fun t => t.2.2) hproj
          simpa [obsOf] using hpr.symm

/-- Witness for C2 at a concrete input: on a 3-page document whose second
page matches, the first unit closes at page 1 and the second unit starts at
page 2 and contains it. -/
theorem C2_marker_boundary_close_witness :
    (2 ≤ (2 : Nat) ∧ 2 ≤ wPagesM.length ∧
      (wMarker2 ((wPagesM.getD (2 - 1) dMPage).native)).isSome = true) ∧
    ∃ i, i + 1 < (extractStudentsMarker noneOracle wMarker2 false wPath wPagesM).length ∧
      (∃ a, ((extractStudentsMarker noneOracle wMarker2 false wPath
                wPagesM).getD i dStudent).page_range = some (a, 2 - 1)) ∧
      (∃ b, ((extractStudentsMarker noneOracle wMarker2 false wPath
                wPagesM).getD (i + 1) dStudent).page_range = some (2, b) ∧ 2 ≤ b) :=
  ⟨⟨by decide, by decide, by decide⟩,
   C2_marker_boundary_close noneOracle wMarker2 false wPath wPagesM 2 (by decide) (by decide)
     (by decide)⟩

/-- Claim C4 counterexample: in `extract_students_from_combined`'s marker
branch a capture group containing a space is stored as the unit's id without
the underscore sanitisation the claim asserts — the `re.sub(r"[^\w\-]", "_")`
call exists only in `split_pdf_by_marker` (line 143), not in the
segmentation branch (lines 227-230).  On a one-page document whose match
value is `"X Y"`, the unit id is `"X Y"`, while the claimed sanitisation
would give `"X_Y"`. -/
theorem C4_sanitization_refuted :
    ((extractStudentsMarker noneOracle mC4 false wPath wPagesC4).getD 0 dStudent).id = "X Y"
    ∧ sanitizeMarker "X Y" = "X_Y" ∧ ("X Y" : String) ≠ "X_Y" :=
  ⟨by decide, by decide, by decide⟩

/-- Claim C4 (amended): in marker-pattern segmentation, for every page match
the new unit opened at the matching page has as id the raw match value
(first capture group, or whole match when the pattern has no group), only
whitespace-stripped by `Student.__post_init__` (and replaced by `"Unknown"`
when empty) — no underscore sanitisation is applied. -/
theorem C4_marker_id_unsanitized (o : InfoOracle) (m : String → Option String) (e : Bool)
    (path : String) (pages : List MPage) (k : Nat) (v : String)
    (hk1 : 1 ≤ k) (hkM : k ≤ pages.length)
    (hmatch : m ((pages.getD (k - 1) dMPage).native) = some v) :
    ∃ i, i < (extractStudentsMarker o m e path pages).length ∧
      (∃ b, ((extractStudentsMarker o m e path pages).getD i dStudent).page_range
          = some (k, b)) ∧
      ((extractStudentsMarker o m e path pages).getD i dStudent).id = cleanField v := by
  cases pages with
  | nil => simp at hkM; omega
  | cons p1 rest =>
    rcases Nat.lt_or_ge k 2 with hk1' | hk2
    · have hkeq : k = 1 := by omega
      subst hkeq
      simp only [show (1 : Nat) - 1 = 0 from rfl, List.getD_cons_zero] at hmatch
      have hobs := extractMarker_obs o m e path p1 rest (Or.inl (by rw [hmatch]; rfl))
      rw [hmatch] at hobs
      simp only [dictGet, Option.getD_some] at hobs
      have hlen : 0 < (extractStudentsMarker o m e path (p1 :: rest)).length := by
        have h1 := congrArg List.length hobs
        rw [List.length_map, chainUnits_length] at h1
        omega
      have hproj := list_getD_map obsOf dStudent (extractStudentsMarker o m e path (p1 :: rest)) 0
      rw [hobs] at hproj
      cases hbs : matchList m rest 2 with
      | nil =>
        rw [hbs, chainUnits_head_nil] at hproj
        refine ⟨0, hlen, ⟨(p1 :: rest).length, ?_⟩, ?_⟩
        · have hpr := congrArg (fun t => t.2.2) hproj
          simpa [obsOf] using hpr.symm
        · have hid := congrArg (fun t => t.1) hproj
          simpa [obsOf] using hid.symm
      | cons kv2 l2' =>
        cases kv2 with
        | mk k2 v2 =>
          rw [hbs, chainUnits_head_cons] at hproj
          refine ⟨0, hlen, ⟨k2 - 1, ?_⟩, ?_⟩
          · have hpr := congrArg (fun t => t.2.2) hproj
            simpa [obsOf] using hpr.symm
          · have hid := congrArg (fun t => t.1) hproj
            simpa [obsOf] using hid.symm
    · have hgetd : (p1 :: rest).getD (k - 1) dMPage = rest.getD (k - 2) dMPage := by
        rw [show k - 1 = (k - 2) + 1 by omega, List.getD_cons_succ]
      rw [hgetd] at hmatch
      have hjlt : k - 2 < rest.length := by
        simp only [List.length_cons] at hkM
        omega
      have hmem : (2 + (k - 2), v) ∈ matchList m rest 2 :=
        matchList_mem m rest 2 (k - 2) v hjlt hmatch
      rw [show 2 + (k - 2) = k by omega] at hmem
      obtain ⟨l1, l2, hsplit⟩ := List.append_of_mem hmem
      have hpm : ∃ p ∈ rest, (m p.native).isSome = true :=
        ⟨rest.getD (k - 2) dMPage, getD_mem hjlt dMPage, by rw [hmatch]; rfl⟩
      have hobs := extractMarker_obs o m e path p1 rest (Or.inr hpm)
      rw [hsplit] at hobs
      have hlen : (extractStudentsMarker o m e path (p1 :: rest)).length
          = l1.length + l2.length + 2 := by
        have h1 := congrArg List.length hobs
        rw [List.length_map, chainUnits_length] at h1
        simp only [List.length_append, List.length_cons] at h1
        omega
      obtain ⟨-, hafter⟩ := chainUnits_split (p1 :: rest).length k v l2 (obsOf dStudent) l1
        (dictGet (m p1.native) "Student_1") 1
      have hproj := list_getD_map obsOf dStudent (extractStudentsMarker o m e path (p1 :: rest))
        (l1.length + 1)
      rw [hobs, hafter] at hproj
      cases l2 with
      | nil =>
        rw [chainUnits_head_nil] at hproj
        refine ⟨l1.length + 1, by omega, ⟨(p1 :: rest).length, ?_⟩, ?_⟩
        · have hpr := congrArg (fun t => t.2.2) hproj
          simpa [obsOf] using hpr.symm
        · have hid := congrArg (fun t => t.1) hproj
          simpa [obsOf] using hid.symm
      | cons kv2 l2' =>
        cases kv2 with
        | mk k2 v2 =>
          rw [chainUnits_head_cons] at hproj
          refine ⟨l1.length + 1, by omega, ⟨k2 - 1, ?_⟩, ?_⟩
          · have hpr := congrArg (fun t => t.2.2) hproj
            simpa [obsOf] using hpr.symm
          · have hid := congrArg (fun t => t.1) hproj
            simpa [obsOf] using hid.symm

/-- Witness for the amended C4 at a concrete input: the unit opened at the
matching page 2 carries the raw match value `"2"`. -/
theorem C4_marker_id_unsanitized_witness :
    (1 ≤ (2 : Nat) ∧ 2 ≤ wPagesM.length ∧
      wMarker2 ((wPagesM.getD (2 - 1) dMPage).native) = some "2") ∧
    ∃ i, i < (extractStudentsMarker noneOracle wMarker2 false wPath wPagesM).length ∧
      (∃ b, ((extractStudentsMarker noneOracle wMarker2 false wPath
                wPagesM).getD i dStudent).page_range = some (2, b)) ∧
      ((extractStudentsMarker noneOracle wMarker2 false wPath wPagesM).getD i dStudent).id
        = cleanField "2" :=
  ⟨⟨by decide, by decide, by decide⟩,
   C4_marker_id_unsanitized noneOracle wMarker2 false wPath wPagesM 2 "2" (by decide)
     (by decide) (by decide)⟩

/-- Claim C10: marker-pattern unit boundaries and marker-derived IDs depend
only on each page's native text layer — the pattern is matched against
`page.extract_text() or ""` (line 211) before the OCR fallback (lines
232-237) replaces `text` for content purposes.  Two runs that differ only in
OCR availability produce the same page ranges; when at least one page
matches (so no unit's id is resolved from OCR-dependent content), they also
produce the same IDs. -/
theorem C10_ocr_noninterference (o : InfoOracle) (m : String → Option String) (path : String)
    (pages : List MPage) (e1 e2 : Bool) :
    (extractStudentsMarker o m e1 path pages).map Student.page_range
      = (extractStudentsMarker o m e2 path pages).map Student.page_range
    ∧ ((∃ p ∈ pages, (m p.native).isSome = true) →
        (extractStudentsMarker o m e1 path pages).map Student.id
          = (extractStudentsMarker o m e2 path pages).map Student.id) := by
  constructor
  · by_cases hm : ∃ p ∈ pages, (m p.native).isSome = true
    · cases pages with
      | nil => rfl
      | cons p1 rest =>
        have hd : (m p1.native).isSome = true ∨ ∃ p ∈ rest, (m p.native).isSome = true := by
          obtain ⟨p, hp, hs⟩ := hm
          rcases List.mem_cons.mp hp with rfl | hp'
          · exact Or.inl hs
          · exact Or.inr ⟨p, hp', hs⟩
        have h1 := extractMarker_obs o m e1 path p1 rest hd
        have h2 := extractMarker_obs o m e2 path p1 rest hd
        have hcmp : ∀ e : Bool,
            (extractStudentsMarker o m e path (p1 :: rest)).map Student.page_range
              = ((extractStudentsMarker o m e path (p1 :: rest)).map obsOf).map
                  (fun t => t.2.2) := by
          intro e
          rw [List.map_map]
          rfl
        rw [hcmp e1, hcmp e2, h1, h2]
    · push_neg at hm
      have hm' : ∀ p ∈ pages, m p.native = none := by
        intro p hp
        cases h : m p.native with
        | none => rfl
        | some v => exact absurd (by rw [h]; rfl) (hm p hp)
      cases pages with
      | nil => rfl
      | cons p1 rest =>
        rw [marker_nomatch_char o m e1 path (p1 :: rest) (by simp) hm',
            marker_nomatch_char o m e2 path (p1 :: rest) (by simp) hm']
        simp [mkStudent]
  · intro hm
    cases pages with
    | nil => rfl
    | cons p1 rest =>
      have hd : (m p1.native).isSome = true ∨ ∃ p ∈ rest, (m p.native).isSome = true := by
        obtain ⟨p, hp, hs⟩ := hm
        rcases List.mem_cons.mp hp with rfl | hp'
        · exact Or.inl hs
        · exact Or.inr ⟨p, hp', hs⟩
      have h1 := extractMarker_obs o m e1 path p1 rest hd
      have h2 := extractMarker_obs o m e2 path p1 rest hd
      have hcmp : ∀ e : Bool,
          (extractStudentsMarker o m e path (p1 :: rest)).map Student.id
            = ((extractStudentsMarker o m e path (p1 :: rest)).map obsOf).map
                (fun t => t.1) := by
        intro e
        rw [List.map_map]
        rfl
      rw [hcmp e1, hcmp e2, h1, h2]

/-- Witness for C10 at a concrete input: a 2-page document whose first page
has no text layer but OCR text, and whose second page matches the marker —
ranges and ids agree between the OCR-enabled and OCR-disabled runs (the
contents differ, which is not part of the claim). -/
theorem C10_ocr_noninterference_witness :
    (∃ p ∈ wPages10, (mMark p.native).isSome = true) ∧
    (extractStudentsMarker noneOracle mMark true wPath wPages10).map Student.page_range
      = (extractStudentsMarker noneOracle mMark false wPath wPages10).map Student.page_range
    ∧ (extractStudentsMarker noneOracle mMark true wPath wPages10).map Student.id
      = (extractStudentsMarker noneOracle mMark false wPath wPages10).map Student.id :=
  ⟨by decide,
   (C10_ocr_noninterference noneOracle mMark wPath wPages10 true false).1,
   (C10_ocr_noninterference noneOracle mMark wPath wPages10 true false).2 (by decide)⟩

/-! ### Grading orchestration -/

/-- Claim C6: `grade_all` records exactly one `GradeResult` per unit, in unit
order; a unit whose generation call raises is recorded with empty
`element_grades`, failure-explaining `overall_feedback`, and the
distinguishing provenance tag `ai_provider = "Error"`, and the batch
continues (the function is total, so no exception reaches the caller). -/
theorem C6_gradeAll_isolation (suggestions : Bool)
    (gradeFn : Student → Except String AiResult) (students : List Student) :
    (gradeAll suggestions gradeFn students).length = students.length ∧
    (∀ i, i < students.length →
      (gradeAll suggestions gradeFn students).getD i dGR
        = gradeOne suggestions gradeFn (students.getD i dStudent)) ∧
    (∀ i msg, i < students.length →
      gradeFn (students.getD i dStudent) = Except.error msg →
      ((gradeAll suggestions gradeFn students).getD i dGR).element_grades = [] ∧
      ((gradeAll suggestions gradeFn students).getD i dGR).overall_feedback
        = "Error during grading: " ++ msg ∧
      ((gradeAll suggestions gradeFn students).getD i dGR).ai_provider = "Error" ∧
      ((gradeAll suggestions gradeFn students).getD i dGR).student_id
        = (students.getD i dStudent).id ∧
      ((gradeAll suggestions gradeFn students).getD i dGR).student_name
        = (students.getD i dStudent).name) := by
  have key : ∀ i, i < students.length →
      (gradeAll suggestions gradeFn students).getD i dGR
        = gradeOne suggestions gradeFn (students.getD i dStudent) := by
    intro i hi
    rw [List.getD_eq_getElem _ _ (by simpa [gradeAll] using hi),
        List.getD_eq_getElem _ _ hi]
    simp [gradeAll]
  refine ⟨by simp [gradeAll], key, ?_⟩
  intro i msg hi herr
  rw [key i hi]
  unfold gradeOne
  rw [herr]
  exact ⟨rfl, rfl, rfl, rfl, rfl⟩

/-- Witness for C6 at a concrete input: a two-student batch whose first
generation call fails still yields two results, the first failure-tagged. -/
theorem C6_gradeAll_isolation_witness :
    (0 < [wStudentA, wStudentB].length
      ∧ wGradeFn ([wStudentA, wStudentB].getD 0 dStudent) = Except.error "boom") ∧
    (gradeAll false wGradeFn [wStudentA, wStudentB]).length
      = [wStudentA, wStudentB].length ∧
    ((gradeAll false wGradeFn [wStudentA, wStudentB]).getD 0 dGR).element_grades = [] ∧
    ((gradeAll false wGradeFn [wStudentA, wStudentB]).getD 0 dGR).overall_feedback
      = "Error during grading: " ++ "boom" ∧
    ((gradeAll false wGradeFn [wStudentA, wStudentB]).getD 0 dGR).ai_provider = "Error" :=
  ⟨⟨by decide, by rfl⟩,
   (C6_gradeAll_isolation false wGradeFn [wStudentA, wStudentB]).1,
   ((C6_gradeAll_isolation false wGradeFn [wStudentA, wStudentB]).2.2 0 "boom" (by decide)
      (by rfl)).1,
   ((C6_gradeAll_isolation false wGradeFn [wStudentA, wStudentB]).2.2 0 "boom" (by decide)
      (by rfl)).2.1,
   ((C6_gradeAll_isolation false wGradeFn [wStudentA, wStudentB]).2.2 0 "boom" (by decide)
      (by rfl)).2.2.1⟩

/-- Claim C7 counterexample: `_convert_ai_result` reads
`ai_result.get("student_id", student.id)`, which falls back to the unit's id
only when the KEY is absent; the parse-failure fallback of
`parse_grading_response` supplies `student_id = "Unknown"`, so a unit whose
identity was already resolved (`"S-1"`) is overwritten with `"Unknown"`,
contradicting the claim. -/
theorem C7_unknown_overwrite_refuted :
    (convertAiResult false wStudentA (parseGradingFallback "garbage")).student_id = "Unknown"
    ∧ wStudentA.id = "S-1" ∧ ("Unknown" : String) ≠ "S-1" :=
  ⟨by rfl, by decide, by decide⟩

/-- Claim C7 (amended): `_convert_ai_result` fills student id/name from the
response whenever the response dict contains the key — including when the
value is the placeholder `"Unknown"` — and falls back to the unit's own
id/name only when the key is absent; in particular a parse-failure response
always yields `"Unknown"` for both fields. -/
theorem C7_response_key_fallback (suggestions : Bool) (s : Student) (ai : AiResult) :
    (ai.student_id = none → (convertAiResult suggestions s ai).student_id = s.id) ∧
    (∀ v, ai.student_id = some v → (convertAiResult suggestions s ai).student_id = v) ∧
    (ai.student_name = none → (convertAiResult suggestions s ai).student_name = s.name) ∧
    (∀ v, ai.student_name = some v → (convertAiResult suggestions s ai).student_name = v) ∧
    (∀ raw, (convertAiResult suggestions s (parseGradingFallback raw)).student_id = "Unknown"
      ∧ (convertAiResult suggestions s (parseGradingFallback raw)).student_name
          = "Unknown") := by
  refine ⟨?_, ?_, ?_, ?_, ?_⟩ <;> intros <;> simp_all [convertAiResult, parseGradingFallback]

/-- Witness for the amended C7 at concrete inputs: a parse-failure response
overwrites the resolved id with `"Unknown"`; a response without the key
falls back to the unit's id. -/
theorem C7_response_key_fallback_witness :
    ((parseGradingFallback "oops").student_id = some "Unknown") ∧
    (convertAiResult false wStudentA (parseGradingFallback "oops")).student_id = "Unknown" ∧
    (convertAiResult false wStudentA ⟨none, none, [], none, none⟩).student_id
      = wStudentA.id :=
  ⟨rfl,
   (C7_response_key_fallback false wStudentA (parseGradingFallback "oops")).2.1 "Unknown" rfl,
   (C7_response_key_fallback false wStudentA ⟨none, none, [], none, none⟩).1 rfl⟩

theorem updateGrades_found (ename : String) (marks : Rat) (fb : Option String) :
    ∀ (l : List ElementGrade), (∃ g ∈ l, g.element_name = ename) →
      (updateGrades ename marks fb l).2 = true ∧
      (updateGrades ename marks fb l).1.length = l.length ∧
      ∃ i, i < l.length ∧ (l.getD i dEG).element_name = ename ∧
        (∀ j, j < i → (l.getD j dEG).element_name ≠ ename) ∧
        ((updateGrades ename marks fb l).1.getD i dEG).element_name
          = (l.getD i dEG).element_name ∧
        ((updateGrades ename marks fb l).1.getD i dEG).marks_awarded = marks ∧
        ((updateGrades ename marks fb l).1.getD i dEG).max_marks
          = (l.getD i dEG).max_marks ∧
        ((updateGrades ename marks fb l).1.getD i dEG).feedback
          = fb.getD (l.getD i dEG).feedback ∧
        (∀ j, j ≠ i → (updateGrades ename marks fb l).1.getD j dEG = l.getD j dEG) := by
  intro l
  induction l with
  | nil => rintro ⟨g, hg, -⟩; exact absurd hg (List.not_mem_nil g)
  | cons g rest ih =>
    intro hex
    by_cases hg : g.element_name = ename
    · refine ⟨by simp [updateGrades, hg], by simp [updateGrades, hg], 0, by simp, hg,
        fun j hj => absurd hj (by omega), by simp [updateGrades, hg],
        by simp [updateGrades, hg], by simp [updateGrades, hg],
        by simp [updateGrades, hg], ?_⟩
      intro j hj
      cases j with
      | zero => exact absurd rfl hj
      | succ j' => simp [updateGrades, hg]
    · have hex' : ∃ g' ∈ rest, g'.element_name = ename := by
        obtain ⟨g', hg', he⟩ := hex
        rcases List.mem_cons.mp hg' with rfl | h
        · exact absurd he hg
        · exact ⟨g', h, he⟩
      obtain ⟨h2, hlen, i, hi, hname, hprev, he1, he2, he3, he4, hothers⟩ := ih hex'
      refine ⟨by simp [updateGrades, hg, h2], by simp [updateGrades, hg, hlen], i + 1,
        by simpa using hi, by simpa using hname, ?_, ?_, ?_, ?_, ?_, ?_⟩
      · intro j hj
        cases j with
        | zero => simpa using hg
        | succ j' => simpa using hprev j' (by omega)
      · simpa only [updateGrades, if_neg hg, List.getD_cons_succ] using he1
      · simpa only [updateGrades, if_neg hg, List.getD_cons_succ] using he2
      · simpa only [updateGrades, if_neg hg, List.getD_cons_succ] using he3
      · simpa only [updateGrades, if_neg hg, List.getD_cons_succ] using he4
      · intro j hj
        cases j with
        | zero => simp [updateGrades, hg]
        | succ j' =>
          simp only [updateGrades, if_neg hg, List.getD_cons_succ]
          exact hothers j' (by omega)

/-- Claim C8: a manual edit of one named `ElementGrade` via
`update_element_grade` changes only the first grade whose name matches —
setting its marks and, when supplied, its feedback, keeping its name and max
marks — sets `manually_edited = true`, and leaves every other `ElementGrade`
(and the result's other fields) unchanged. -/
theorem C8_update_element_frame (r : GradeResult) (ename : String) (marks : Rat)
    (fb : Option String) (hex : ∃ g ∈ r.element_grades, g.element_name = ename) :
    (r.update_element_grade ename marks fb).manually_edited = true ∧
    (r.update_element_grade ename marks fb).student_id = r.student_id ∧
    (r.update_element_grade ename marks fb).student_name = r.student_name ∧
    (r.update_element_grade ename marks fb).overall_feedback = r.overall_feedback ∧
    (r.update_element_grade ename marks fb).element_grades.length
      = r.element_grades.length ∧
    ∃ i, i < r.element_grades.length ∧
      (r.element_grades.getD i dEG).element_name = ename ∧
      (∀ j, j < i → (r.element_grades.getD j dEG).element_name ≠ ename) ∧
      ((r.update_element_grade ename marks fb).element_grades.getD i dEG).element_name
        = (r.element_grades.getD i dEG).element_name ∧
      ((r.update_element_grade ename marks fb).element_grades.getD i dEG).marks_awarded
        = marks ∧
      ((r.update_element_grade ename marks fb).element_grades.getD i dEG).max_marks
        = (r.element_grades.getD i dEG).max_marks ∧
      ((r.update_element_grade ename marks fb).element_grades.getD i dEG).feedback
        = fb.getD ((r.element_grades.getD i dEG).feedback) ∧
      (∀ j, j ≠ i →
        (r.update_element_grade ename marks fb).element_grades.getD j dEG
          = r.element_grades.getD j dEG) := by
  obtain ⟨h2, hlen, hrest⟩ := updateGrades_found ename marks fb r.element_grades hex
  unfold GradeResult.update_element_grade
  exact ⟨by simp [h2], rfl, rfl, rfl, hlen, hrest⟩

/-- Witness for C8 at a concrete input: editing `"Body"` in a two-element
result flips `manually_edited` and keeps the list length. -/
theorem C8_update_element_frame_witness :
    (∃ g ∈ wResult.element_grades, g.element_name = "Body") ∧
    (wResult.update_element_grade "Body" 9 none).manually_edited = true ∧
    (wResult.update_element_grade "Body" 9 none).element_grades.length
      = wResult.element_grades.length :=
  ⟨by decide,
   (C8_update_element_frame wResult "Body" 9 none (by decide)).1,
   (C8_update_element_frame wResult "Body" 9 none (by decide)).2.2.2.2.1⟩

/-! ### Trimming invariants (C9) -/

theorem dropWhile_cons_false {α : Type} (p : α → Bool) (a : α) (l : List α)
    (h : p a = false) : (a :: l).dropWhile p = a :: l := by
  simp [List.dropWhile, h]

theorem dropWhile_self {α : Type} (p : α → Bool) :
    ∀ l : List α, (l.dropWhile p).dropWhile p = l.dropWhile p := by
  intro l
  induction l with
  | nil => rfl
  | cons a t ih =>
    by_cases h : p a = true
    · rw [List.dropWhile_cons_of_pos h]
      exact ih
    · have hf : p a = false := by
        cases hpa : p a
        · rfl
        · exact absurd hpa h
      rw [dropWhile_cons_false p a t hf, dropWhile_cons_false p a t hf]

theorem dropWhile_head_false {α : Type} (p : α → Bool) :
    ∀ (l : List α) (a : α) (t : List α), l.dropWhile p = a :: t → p a = false := by
  intro l
  induction l with
  | nil => intro a t h; simp [List.dropWhile] at h
  | cons b l ih =>
    intro a t h
    by_cases hb : p b = true
    · rw [List.dropWhile_cons_of_pos hb] at h
      exact ih a t h
    · have hf : p b = false := by
        cases hpb : p b
        · rfl
        · exact absurd hpb hb
      rw [dropWhile_cons_false p b l hf] at h
      injection h with h1 h2
      rw [← h1]
      exact hf

theorem exists_dropWhile_append {α : Type} (p : α → Bool) :
    ∀ l : List α, ∃ pre, l = pre ++ l.dropWhile p := by
  intro l
  induction l with
  | nil => exact ⟨[], rfl⟩
  | cons a t ih =>
    by_cases h : p a = true
    · obtain ⟨pre, hpre⟩ := ih
      rw [List.dropWhile_cons_of_pos h]
      exact ⟨a :: pre, by rw [List.cons_append, ← hpre]⟩
    · have hf : p a = false := by
        cases hpa : p a
        · rfl
        · exact absurd hpa h
      exact ⟨[], by rw [dropWhile_cons_false p a t hf]; rfl⟩

theorem stripCore_idem (l : List Char) : stripCore (stripCore l) = stripCore l := by
  unfold stripCore
  generalize hd1 : l.dropWhile Char.isWhitespace = d1
  have hd1self : d1.dropWhile Char.isWhitespace = d1 := by
    rw [← hd1]
    exact dropWhile_self _ l
  generalize hd2 : (d1.reverse.dropWhile Char.isWhitespace).reverse = d2
  have hdw : d2.dropWhile Char.isWhitespace = d2 := by
    cases hc : d2 with
    | nil => rfl
    | cons a t =>
      obtain ⟨pre, hpre⟩ := exists_dropWhile_append Char.isWhitespace d1.reverse
      have hd1eq : d1 = d2 ++ pre.reverse := by
        have h := congrArg List.reverse hpre
        rw [List.reverse_reverse, List.reverse_append, hd2] at h
        exact h
      have hd1cons : d1 = a :: (t ++ pre.reverse) := by
        rw [hd1eq, hc]
        simp
      have hpa : Char.isWhitespace a = false :=
        dropWhile_head_false Char.isWhitespace d1 a (t ++ pre.reverse)
          (hd1self.trans hd1cons)
      exact dropWhile_cons_false _ a t hpa
  rw [hdw]
  have hrev : d2.reverse = d1.reverse.dropWhile Char.isWhitespace := by
    rw [← hd2, List.reverse_reverse]
  rw [hrev, dropWhile_self, ← hrev, List.reverse_reverse]

theorem pyStrip_idem (s : String) : pyStrip (pyStrip s) = pyStrip s :=
  congrArg String.mk (stripCore_idem s.data)

theorem pyStrip_unknown : pyStrip "Unknown" = "Unknown" := by decide

theorem cleanField_stripped (raw : String) : pyStrip (cleanField raw) = cleanField raw := by
  unfold cleanField
  by_cases h : raw = ""
  · rw [if_pos h]
    exact pyStrip_unknown
  · rw [if_neg h]
    exact pyStrip_idem raw

theorem markerStep_clean (m : String → Option String) (e : Bool) (path : String)
    (pageNum : Nat) (p : MPage) (st : MState)
    (h : ∀ u ∈ st.students, pyStrip u.id = u.id ∧ pyStrip u.name = u.name) :
    ∀ u ∈ (markerStep m e path pageNum p st).students,
      pyStrip u.id = u.id ∧ pyStrip u.name = u.name := by
  intro u hu
  cases hm : m p.native with
  | none =>
    rw [markerStep_nomatch m e path pageNum p st hm] at hu
    exact h u hu
  | some v =>
    by_cases hcc : st.currentContent = []
    · rw [markerStep_match_nil m e path pageNum p st v hm hcc] at hu
      exact h u hu
    · rw [markerStep_match_cons m e path pageNum p st v hm hcc] at hu
      rcases List.mem_append.mp hu with h1 | h1
      · exact h u h1
      · have heq := List.mem_singleton.mp h1
        subst heq
        exact ⟨cleanField_stripped _, cleanField_stripped _⟩

theorem markerLoop_clean (m : String → Option String) (e : Bool) (path : String) :
    ∀ (rest : List MPage) (pageNum : Nat) (st : MState),
      (∀ u ∈ st.students, pyStrip u.id = u.id ∧ pyStrip u.name = u.name) →
      ∀ u ∈ (markerLoop m e path pageNum rest st).students,
        pyStrip u.id = u.id ∧ pyStrip u.name = u.name := by
  intro rest
  induction rest with
  | nil =>
    intro pageNum st h u hu
    rw [markerLoop] at hu
    exact h u hu
  | cons p rest ih =>
    intro pageNum st h u hu
    rw [markerLoop] at hu
    exact ih (pageNum + 1) _ (markerStep_clean m e path pageNum p st h) u hu

theorem markerFinalize_clean (o : InfoOracle) (path : String) (M : Nat) (st : MState)
    (h : ∀ u ∈ st.students, pyStrip u.id = u.id ∧ pyStrip u.name = u.name) :
    ∀ u ∈ markerFinalize o path M st, pyStrip u.id = u.id ∧ pyStrip u.name = u.name := by
  intro u hu
  unfold markerFinalize at hu
  by_cases hcc : st.currentContent = []
  · rw [if_pos hcc] at hu
    exact h u hu
  · rw [if_neg hcc] at hu
    rcases List.mem_append.mp hu with h1 | h1
    · exact h u h1
    · have heq := List.mem_singleton.mp h1
      subst heq
      exact ⟨cleanField_stripped _, cleanField_stripped _⟩

theorem fixedLoop_clean (o : InfoOracle) (e : Bool) (path : String) (pages : List MPage)
    (P : Nat) :
    ∀ (starts : List Nat) (acc : List Student),
      (∀ u ∈ acc, pyStrip u.id = u.id ∧ pyStrip u.name = u.name) →
      ∀ u ∈ fixedLoop o e path pages P starts acc,
        pyStrip u.id = u.id ∧ pyStrip u.name = u.name := by
  intro starts
  induction starts with
  | nil =>
    intro acc hacc u hu
    rw [fixedLoop] at hu
    exact hacc u hu
  | cons s rest ih =>
    intro acc hacc u hu
    rw [fixedLoop] at hu
    refine ih _ ?_ u hu
    intro u' hu'
    rcases List.mem_append.mp hu' with h1 | h1
    · exact hacc u' h1
    · have heq := List.mem_singleton.mp h1
      subst heq
      exact ⟨cleanField_stripped _, cleanField_stripped _⟩

/-- Claim C9 counterexample: a marker capture group consisting of whitespace
(e.g. Python pattern `r"Student(\s+)ID"` on a page reading `"Student ID"`)
produces a StudentUnit whose id is the literal empty string —
`Student.__post_init__` tests truthiness BEFORE stripping, so a non-empty
all-whitespace id is stripped to `""` rather than falling back to
`"Unknown"`. -/
theorem C9_empty_id_refuted :
    (extractStudentsMarker noneOracle m9 false wPath wPages9).map Student.id = [""]
    ∧ ("" : String) ≠ "Unknown" :=
  ⟨by decide, by decide⟩

/-- Claim C9 (amended): every StudentUnit constructed by the segmentation
pass (marker or fixed-pages strategy) has identifier and display name that
are trimmed of surrounding whitespace (fixed points of strip); an empty raw
value falls back to `"Unknown"`, while a non-empty raw value is merely
stripped — so a whitespace-only raw identifier yields the literal empty
string rather than the placeholder. -/
theorem C9_trimmed_or_unknown (o : InfoOracle) (m : String → Option String) (e : Bool)
    (path : String) (pages : List MPage) (P : Nat) :
    (∀ u ∈ extractStudentsMarker o m e path pages,
        pyStrip u.id = u.id ∧ pyStrip u.name = u.name) ∧
    (∀ u ∈ extractStudentsFixed o e path pages P,
        pyStrip u.id = u.id ∧ pyStrip u.name = u.name) ∧
    cleanField "" = "Unknown" ∧
    (∀ raw, raw ≠ "" → cleanField raw = pyStrip raw) := by
  refine ⟨?_, ?_, by decide, ?_⟩
  · intro u hu
    exact markerFinalize_clean o path pages.length _
      (markerLoop_clean m e path pages 1 _ (fun u' h => absurd h (List.not_mem_nil u')))
      u hu
  · intro u hu
    exact fixedLoop_clean o e path pages P _ []
      (fun u' h => absurd h (List.not_mem_nil u')) u hu
  · intro raw h
    rw [cleanField, if_neg h]

/-- Witness for the amended C9 at a concrete input: the (empty-id) unit of
the whitespace-capture run is indeed strip-fixed, and a non-empty raw value
is cleaned to its stripped form. -/
theorem C9_trimmed_or_unknown_witness :
    (wStudent9 ∈ extractStudentsMarker noneOracle m9 false wPath wPages9) ∧
    (pyStrip wStudent9.id = wStudent9.id ∧ pyStrip wStudent9.name = wStudent9.name) ∧
    (" a " ≠ "" ∧ cleanField " a " = pyStrip " a ") :=
  ⟨by decide,
   (C9_trimmed_or_unknown noneOracle m9 false wPath wPages9 1).1 wStudent9 (by decide),
   by decide,
   (C9_trimmed_or_unknown noneOracle m9 false wPath wPages9 1).2.2.2 " a " (by decide)⟩
